import Mathlib

/-!
# Verification of the gonum test drivers

Shallow embedding of

* `lapack/testlapack/dggsvd3.go`  (`Dggsvd3Test`)
* `lapack/testlapack/dggsvp3.go`  (`Dggsvp3Test`)
* `blas/testblas/ztbmv.go`        (`testZtbmv`, the fill loops)
* `spatial/transform/errors.go`   (`DegenerateInputError.Error`)
* `stat/distuv/laplace_test.go`   (`TestLaplaceFit`, `TestLaplaceFitPanic`)

Go `int` values are embedded as `Int`; where the source computes a sum or a
product that can leave the range of `int` (the fill loops of ztbmv.go), the
wrap-around of the 64-bit type is embedded with it.  The numerical routines
under test are interface values in the source; the drivers are embedded with
the values those routines return taken as parameters.
-/

namespace Gonum

/-! ## The case tables of `Dggsvd3Test` and `Dggsvp3Test` -/

/-- One row of the table of `Dggsvd3Test` (dggsvd3.go lines 25-29). -/
structure Dggsvd3Row where
  m : Int
  p : Int
  n : Int
  lda : Int
  ldb : Int
  ldu : Int
  ldv : Int
  ldq : Int
  ok : Bool
  deriving DecidableEq, Repr

/-- One row of the table of `Dggsvp3Test` (dggsvp3.go lines 25-27). -/
structure Dggsvp3Row where
  m : Int
  p : Int
  n : Int
  lda : Int
  ldb : Int
  ldu : Int
  ldv : Int
  ldq : Int
  deriving DecidableEq, Repr

/-- The table of `Dggsvd3Test`, dggsvd3.go lines 30-48, in source order. -/
def dggsvd3Table : List Dggsvd3Row :=
  [ ⟨3, 3, 5, 0, 0, 0, 0, 0, true⟩,
    ⟨5, 5, 5, 0, 0, 0, 0, 0, true⟩,
    ⟨5, 5, 5, 0, 0, 0, 0, 0, true⟩,
    ⟨5, 5, 10, 0, 0, 0, 0, 0, true⟩,
    ⟨5, 5, 10, 0, 0, 0, 0, 0, true⟩,
    ⟨5, 5, 10, 0, 0, 0, 0, 0, true⟩,
    ⟨10, 5, 5, 0, 0, 0, 0, 0, true⟩,
    ⟨10, 5, 5, 0, 0, 0, 0, 0, true⟩,
    ⟨10, 10, 10, 0, 0, 0, 0, 0, true⟩,
    ⟨10, 10, 10, 0, 0, 0, 0, 0, true⟩,
    ⟨5, 5, 5, 10, 10, 10, 10, 10, true⟩,
    ⟨5, 5, 5, 10, 10, 10, 10, 10, true⟩,
    ⟨5, 5, 10, 20, 20, 10, 10, 20, true⟩,
    ⟨5, 5, 10, 20, 20, 10, 10, 20, true⟩,
    ⟨5, 5, 10, 20, 20, 10, 10, 20, true⟩,
    ⟨10, 5, 5, 10, 10, 20, 10, 10, true⟩,
    ⟨10, 5, 5, 10, 10, 20, 10, 10, true⟩,
    ⟨10, 10, 10, 20, 20, 20, 20, 20, true⟩,
    ⟨10, 10, 10, 20, 20, 20, 20, 20, true⟩ ]

/-- The table of `Dggsvp3Test`, dggsvp3.go lines 28-46, in source order. -/
def dggsvp3Table : List Dggsvp3Row :=
  [ ⟨3, 3, 5, 0, 0, 0, 0, 0⟩,
    ⟨5, 5, 5, 0, 0, 0, 0, 0⟩,
    ⟨5, 5, 5, 0, 0, 0, 0, 0⟩,
    ⟨5, 5, 10, 0, 0, 0, 0, 0⟩,
    ⟨5, 5, 10, 0, 0, 0, 0, 0⟩,
    ⟨5, 5, 10, 0, 0, 0, 0, 0⟩,
    ⟨10, 5, 5, 0, 0, 0, 0, 0⟩,
    ⟨10, 5, 5, 0, 0, 0, 0, 0⟩,
    ⟨10, 10, 10, 0, 0, 0, 0, 0⟩,
    ⟨10, 10, 10, 0, 0, 0, 0, 0⟩,
    ⟨5, 5, 5, 10, 10, 10, 10, 10⟩,
    ⟨5, 5, 5, 10, 10, 10, 10, 10⟩,
    ⟨5, 5, 10, 20, 20, 10, 10, 20⟩,
    ⟨5, 5, 10, 20, 20, 10, 10, 20⟩,
    ⟨5, 5, 10, 20, 20, 10, 10, 20⟩,
    ⟨10, 5, 5, 10, 10, 20, 10, 10⟩,
    ⟨10, 5, 5, 10, 10, 20, 10, 10⟩,
    ⟨10, 10, 10, 20, 20, 20, 20, 20⟩,
    ⟨10, 10, 10, 20, 20, 20, 20, 20⟩ ]

/-- The repeated source idiom `ld := test.ld; if ld == 0 { ld = dflt }`. -/
def defaultLd (ld dflt : Int) : Int :=
  if ld = 0 then dflt else ld

/-- The dimensions and leading dimensions with which a driver calls the
routine under test, together with the workspace arguments of that call. -/
structure CallArgs where
  m : Int
  p : Int
  n : Int
  lda : Int
  ldb : Int
  ldu : Int
  ldv : Int
  ldq : Int
  lwork : Int
  workLen : Nat
  deriving DecidableEq, Repr

/-- Arguments of a call made by `Dggsvd3Test` for a row: dggsvd3.go
lines 50-72 compute the leading dimensions, lines 74-84 build the matrices
with them (`a.Stride = lda`, `b.Stride = ldb`, `u.Stride = ldu`,
`v.Stride = ldv`, `q.Stride = ldq`). -/
def dggsvd3Args (test : Dggsvd3Row) (lwork : Int) (workLen : Nat) : CallArgs :=
  { m := test.m, p := test.p, n := test.n,
    lda := defaultLd test.lda test.n,
    ldb := defaultLd test.ldb test.n,
    ldu := defaultLd test.ldu test.m,
    ldv := defaultLd test.ldv test.p,
    ldq := defaultLd test.ldq test.n,
    lwork := lwork, workLen := workLen }

/-- Arguments of a call made by `Dggsvp3Test` for a row: dggsvp3.go
lines 48-70 and 72-82. -/
def dggsvp3Args (test : Dggsvp3Row) (lwork : Int) (workLen : Nat) : CallArgs :=
  { m := test.m, p := test.p, n := test.n,
    lda := defaultLd test.lda test.n,
    ldb := defaultLd test.ldb test.n,
    ldu := defaultLd test.ldu test.m,
    ldv := defaultLd test.ldv test.p,
    ldq := defaultLd test.ldq test.n,
    lwork := lwork, workLen := workLen }

/-- The dense-matrix invariant `stride >= max(1, cols)` for the five matrices
of a call: A is m x n, B is p x n, U is m x m, V is p x p, Q is n x n. -/
def CallArgs.stridesValid (c : CallArgs) : Prop :=
  max 1 c.n ≤ c.lda ∧ max 1 c.n ≤ c.ldb ∧ max 1 c.m ≤ c.ldu ∧
    max 1 c.p ≤ c.ldv ∧ max 1 c.n ≤ c.ldq

instance (c : CallArgs) : Decidable c.stridesValid := by
  unfold CallArgs.stridesValid; infer_instance

/-- A row has tight strides: every leading dimension of the call is the
minimal one (lda, ldb, ldq equal n; ldu equals m; ldv equals p). -/
def tightStrides (c : CallArgs) : Prop :=
  c.lda = c.n ∧ c.ldb = c.n ∧ c.ldu = c.m ∧ c.ldv = c.p ∧ c.ldq = c.n

instance (c : CallArgs) : Decidable (tightStrides c) := by
  unfold tightStrides; infer_instance

/-- A row has padded strides: every leading dimension of the call is larger
than the minimal one. -/
def paddedStrides (c : CallArgs) : Prop :=
  c.n < c.lda ∧ c.n < c.ldb ∧ c.m < c.ldu ∧ c.p < c.ldv ∧ c.n < c.ldq

instance (c : CallArgs) : Decidable (paddedStrides c) := by
  unfold paddedStrides; infer_instance

/-- The (m, p, n) combination of a row of `Dggsvd3Test`. -/
def Dggsvd3Row.dims (t : Dggsvd3Row) : Int × Int × Int := (t.m, t.p, t.n)

/-! ## The body of the loop of `Dggsvd3Test` -/

/-- Go slice expression `s[lo:hi]` on a slice of capacity `c`: the length of
the result, or `none` when the expression panics (bounds out of range). -/
def sliceLen (c lo hi : Int) : Option Nat :=
  if 0 ≤ lo ∧ lo ≤ hi ∧ hi ≤ c then some (hi - lo).toNat else none

/-- The indices at which dggsvd3.go lines 131-143 read `alpha` and `beta`:
`elements` is `alpha[k:k+l]` when `m-k-l >= 0` and `alpha[k:m]` otherwise,
`alpha` has length `n` (line 79), and the loop `for i := range elements`
visits `i + k`.  `none` when the slice expression panics. -/
def alphaBetaIndices (n m k l : Int) : Option (List Int) :=
  let elements := if m - k - l ≥ 0 then sliceLen n k (k + l) else sliceLen n k m
  elements.map fun len => (List.range len).map fun (i : Nat) => (i : Int) + k

/-- The checks a driver performs on the outputs of the routine. -/
inductive Check where
  | orthoU
  | orthoV
  | orthoQ
  | alphaBeta (i : Int)
  | identityA
  | identityB
  deriving DecidableEq, Repr

/-- What a driver records with `t.Errorf`. -/
inductive Failure where
  | notConverged (cas : Nat)
  | checkFailed (cas : Nat) (c : Check)
  deriving DecidableEq, Repr

/-- Observable steps of one iteration of a driver loop. -/
inductive Event where
  | call (args : CallArgs)
  | check (c : Check)
  | errorf (f : Failure)
  deriving DecidableEq, Repr

/-- The trace of one iteration and whether it ended in a run-time panic. -/
structure Run where
  events : List Event
  panicked : Bool
  deriving DecidableEq, Repr

/-- What the real call of `Dggsvd3` returns (dggsvd3.go line 102). -/
structure Dggsvd3Ret where
  k : Int
  l : Int
  ok : Bool
  deriving DecidableEq, Repr

/-- The allocation `make([]float64, len)` panics: the length is negative, or
it is over `maxLen`, the largest length the allocation accepts in the run
(the limit of the platform). -/
def makePanics (maxLen len : Int) : Prop :=
  len < 0 ∨ maxLen < len

instance (maxLen len : Int) : Decidable (makePanics maxLen len) := by
  unfold makePanics; infer_instance

/-- A check followed by the `t.Errorf` of its failing branch; `passes` is the
outcome of the floating-point comparison. -/
def runCheck (passes : Check → Bool) (cas : Nat) (c : Check) : List Event :=
  Event.check c :: (if passes c then [] else [Event.errorf (Failure.checkFailed cas c)])

/-- One iteration of the loop of `Dggsvd3Test` (dggsvd3.go lines 50-173).
`work0` is the value the query call leaves in `work[0]`, `toInt` the Go
conversion `int(work[0])`, `ret` the result of the real call, `passes` the
outcome of each numerical comparison.  `make([]float64, lwork)` panics for a
negative length and for a length over the allocation limit `maxLen`, and
then there is no real call.  The helpers that are not among the sources
(`randomGeneral`, `nanGeneral`, `residualOrthogonal`,
`constructGSVDresults`, `equalApproxGeneral`) and the routine under test are
taken to return. -/
def dggsvd3Case {F : Type} (toInt : F → Int) (maxLen : Int) (passes : Check → Bool)
    (cas : Nat) (test : Dggsvd3Row) (work0 : F) (ret : Dggsvd3Ret) : Run :=
  -- work := []float64{0}; impl.Dggsvd3(..., work, -1, iwork)
  let ev0 := [Event.call (dggsvd3Args test (-1) 1)]
  -- lwork := int(work[0]); work = make([]float64, lwork)
  let lwork := toInt work0
  if makePanics maxLen lwork then ⟨ev0, true⟩ else
  -- k, l, ok := impl.Dggsvd3(..., work, lwork, iwork)
  let ev1 := ev0 ++ [Event.call (dggsvd3Args test lwork lwork.toNat)]
  if !ret.ok then
    -- if test.ok { t.Errorf(...) }; continue
    ⟨ev1 ++ (if test.ok then [Event.errorf (Failure.notConverged cas)] else []), false⟩
  else
  let ev2 := ev1 ++ runCheck passes cas Check.orthoU ++ runCheck passes cas Check.orthoV
    ++ runCheck passes cas Check.orthoQ
  match alphaBetaIndices test.n test.m ret.k ret.l with
  | none => ⟨ev2, true⟩
  | some idxs =>
    ⟨ev2 ++ idxs.flatMap (fun i => runCheck passes cas (Check.alphaBeta i))
      ++ runCheck passes cas Check.identityA ++ runCheck passes cas Check.identityB, false⟩

/-- One iteration of the loop of `Dggsvp3Test` (dggsvp3.go lines 48-146), with
the same parameters as `dggsvd3Case`; the routine has no convergence flag. -/
def dggsvp3Case {F : Type} (toInt : F → Int) (maxLen : Int) (passes : Check → Bool)
    (cas : Nat) (test : Dggsvp3Row) (work0 : F) : Run :=
  -- work := []float64{0}; impl.Dggsvp3(..., work, -1)
  let ev0 := [Event.call (dggsvp3Args test (-1) 1)]
  -- lwork := int(work[0]); work = make([]float64, lwork)
  let lwork := toInt work0
  if makePanics maxLen lwork then ⟨ev0, true⟩ else
  -- k, l := impl.Dggsvp3(..., work, lwork)
  let ev1 := ev0 ++ [Event.call (dggsvp3Args test lwork lwork.toNat)]
  ⟨ev1 ++ runCheck passes cas Check.orthoU ++ runCheck passes cas Check.orthoV
    ++ runCheck passes cas Check.orthoQ
    ++ runCheck passes cas Check.identityA ++ runCheck passes cas Check.identityB, false⟩

/-- The calls of the routine under test in a trace, in order. -/
def callsOf : List Event → List CallArgs
  | [] => []
  | Event.call a :: es => a :: callsOf es
  | _ :: es => callsOf es

/-- The indices of the alpha/beta checks in a trace, in order. -/
def alphaBetaChecked : List Event → List Int
  | [] => []
  | Event.check (Check.alphaBeta i) :: es => i :: alphaBetaChecked es
  | _ :: es => alphaBetaChecked es

/-! ## The fill loops of `testZtbmv` -/

/-- The Go type `blas.Uplo` restricted to the two values `testZtbmv` is
called with. -/
inductive Uplo where
  | Upper
  | Lower
  deriving DecidableEq, Repr

/-- What an assignment of the fill loops stores: a fresh random complex
number (`complex(re, im)`) or the constant `0`. -/
inductive Fill where
  | random
  | zero
  deriving DecidableEq, Repr

/-- One assignment `a[i*lda+j] = ...` of the fill loops: the row `i` and the
column `j` of the entry assigned, the index `i*lda+j` into `a`, and what is
stored. -/
structure Write where
  i : Int
  j : Int
  offset : Int
  val : Fill
  deriving DecidableEq, Repr

/-- The largest value of the Go type `int`, taken as 64 bits wide. -/
def maxInt : Int := 9223372036854775807

/-- The smallest value of the Go type `int`, taken as 64 bits wide. -/
def minInt : Int := -9223372036854775808

/-- The value of an arithmetic result in the Go type `int`: the exact result
wrapped around into the range from `minInt` to `maxInt` (two's complement). -/
def wrapInt (x : Int) : Int :=
  (x + 9223372036854775808) % 18446744073709551616 - 9223372036854775808

/-- What a stretch of the fill loops does: the assignments made, in order,
and whether it ended in a run-time panic (index out of range). -/
structure FillRun where
  writes : List Write
  panicked : Bool
  deriving DecidableEq, Repr

/-- Sequencing of two stretches: what follows a panic is not executed. -/
def FillRun.andThen (r s : FillRun) : FillRun :=
  if r.panicked then r else ⟨r.writes ++ s.writes, s.panicked⟩

/-- The passes `j`, `j+1`, ... of a loop body, `fuel` of them, stopping at
the first pass that panics. -/
def loopPasses (fuel : Nat) (j : Int) (body : Int → FillRun) : FillRun :=
  match fuel with
  | 0 => ⟨[], false⟩
  | fuel + 1 => (body j).andThen (loopPasses fuel (j + 1) body)

/-- The Go loop `for j := lo; j < hi; j++ { body }`: the passes
`lo, lo+1, ..., hi-1` (none when `hi <= lo`), stopping at a panic.  The
counter does not wrap: it never exceeds `hi`, which is a value of type
`int`. -/
def forLoop (lo hi : Int) (body : Int → FillRun) : FillRun :=
  loopPasses (hi - lo).toNat lo body

/-- The assignment `a[i*lda+j] = v` on a slice `a` of length `alen`: the index
is computed in the type `int`, and an index outside `0 <= index < alen`
panics. -/
def assign (alen lda i j : Int) (v : Fill) : FillRun :=
  let idx := wrapInt (wrapInt (i * lda) + j)
  if 0 ≤ idx ∧ idx < alen then ⟨[⟨i, j, idx, v⟩], false⟩ else ⟨[], true⟩

/-- One pass of the outer loop of ztbmv.go lines 50-72, with
`lda := max(1, n)` (line 46) and `a` of length `alen`.  The sums `i+k+1` and
the difference `i-k` are computed in the type `int`.  The loop condition
`j <= i` is `j < i+1`; the outer loop has `i < n`, so `i+1` is at most the
largest `int`. -/
def fillRow (uplo : Uplo) (n k alen i : Int) : FillRun :=
  let lda := max 1 n
  match uplo with
  | Uplo.Upper =>
    -- for j := i; j < min(n, i+k+1); j++ { a[i*lda+j] = complex(re, im) }
    (forLoop i (min n (wrapInt (wrapInt (i + k) + 1)))
      (fun j => assign alen lda i j Fill.random)).andThen
    -- for j := i + k + 1; j < n; j++ { a[i*lda+j] = 0 }
    (forLoop (wrapInt (wrapInt (i + k) + 1)) n (fun j => assign alen lda i j Fill.zero))
  | Uplo.Lower =>
    -- for j := 0; j < i-k; j++ { a[i*lda+j] = 0 }
    (forLoop 0 (wrapInt (i - k)) (fun j => assign alen lda i j Fill.zero)).andThen
    -- for j := max(0, i-k); j <= i; j++ { a[i*lda+j] = complex(re, im) }
    (forLoop (max 0 (wrapInt (i - k))) (i + 1) (fun j => assign alen lda i j Fill.random))

/-- The fill loops of `testZtbmv` (ztbmv.go lines 50-72) on the slice
`a := makeZGeneral(nil, n, n, lda)` of length `alen`:
`for i := 0; i < n; i++ { ... }`. -/
def fillWrites (uplo : Uplo) (n k alen : Int) : FillRun :=
  forLoop 0 n (fillRow uplo n k alen)

/-- Auxiliary: the lists `w lo, w (lo+1), ..., w (hi-1)` joined. -/
def concatPasses {α : Type} (lo hi : Int) (w : Int → List α) : List α :=
  (List.range (hi - lo).toNat).flatMap fun (t : Nat) => w (lo + (t : Int))

/-- Auxiliary: the assignments of pass `i` of the outer loop worked out in
exact integer arithmetic; `fillRow` makes exactly these when no sum wraps and
every index is in range. -/
def rowAssignments (uplo : Uplo) (n k i : Int) : List Write :=
  match uplo with
  | Uplo.Upper =>
    concatPasses i (min n (i + k + 1)) (fun j => [⟨i, j, i * max 1 n + j, Fill.random⟩])
    ++ concatPasses (i + k + 1) n (fun j => [⟨i, j, i * max 1 n + j, Fill.zero⟩])
  | Uplo.Lower =>
    concatPasses 0 (i - k) (fun j => [⟨i, j, i * max 1 n + j, Fill.zero⟩])
    ++ concatPasses (max 0 (i - k)) (i + 1)
      (fun j => [⟨i, j, i * max 1 n + j, Fill.random⟩])

/-- Entry (i, j) lies in the referenced triangle of the n x n matrix. -/
def inTriangle (uplo : Uplo) (n i j : Int) : Prop :=
  match uplo with
  | Uplo.Upper => 0 ≤ i ∧ i ≤ j ∧ j < n
  | Uplo.Lower => 0 ≤ j ∧ j ≤ i ∧ i < n

instance (uplo : Uplo) (n i j : Int) : Decidable (inTriangle uplo n i j) := by
  unfold inTriangle; cases uplo <;> infer_instance

/-- The assignments of the fill loops that go to entry (i, j). -/
def writesAt (uplo : Uplo) (n k alen i j : Int) : List Write :=
  (fillWrites uplo n k alen).writes.filter fun w => decide (w.i = i ∧ w.j = j)

/-! ## `DegenerateInputError` -/

/-- The part of `fmt.Sprintf` the source uses: the characters of the format
are copied, and each verb `%v` is replaced by the text of the next operand
(`%!v(MISSING)` when the operands are used up).  Operands are passed already
rendered by `%v`. -/
def sprintfChars : List Char → List String → List Char
  | [], _ => []
  | [c], _ => [c]
  | c :: d :: cs, args =>
    if c = '%' ∧ d = 'v' then
      match args with
      | [] => "%!v(MISSING)".data ++ sprintfChars cs []
      | a :: rest => a.data ++ sprintfChars cs rest
    else c :: sprintfChars (d :: cs) args

/-- Model of `fmt.Sprintf(format, operands...)` for the verb `%v`. -/
def Sprintf (format : String) (args : List String) : String :=
  ⟨sprintfChars format.data args⟩

/-- `DegenerateInputError.Error` (errors.go lines 9-11):
`fmt.Sprintf("variance too low: %v", float64(e))`.  The type `F` stands for
`float64` and `fmtV` for the `%v` rendering of a `float64`, which belongs to
the Go standard library. -/
def DegenerateInputError.Error {F : Type} (fmtV : F → String) (e : F) : String :=
  Sprintf "variance too low: %v" [fmtV e]

/-! ## `Laplace.Fit` and its tests -/

/-- The fields `Mu` and `Scale` of the distribution `Laplace`, as the tests
use them (`Laplace{Mu: 3, Scale: 5, Src: nil}`); the random source `Src`
plays no part in `Fit` and is left out.  `float64` is embedded as exact
rational arithmetic. -/
structure Laplace where
  Mu : ℚ
  Scale : ℚ
  deriving DecidableEq, Repr

/-- The two panics `TestLaplaceFitPanic` expects of `Fit`
(laplace_test.go lines 196-201). -/
inductive FitPanic where
  | badLength
  | badNoSamples
  deriving DecidableEq, Repr

/-- Modelled from the spec: part of `Laplace.Fit`, which is not among the
sources.  The weight of each sample: the given weights, or 1 for each sample
when the weight slice is `nil`. -/
def effWeights (samples : List ℚ) (weights : Option (List ℚ)) : List ℚ :=
  match weights with
  | none => samples.map fun _ => 1
  | some ws => ws

/-- Modelled from the spec: part of `Laplace.Fit`, which is not among the
sources.  The cumulative weight of the value `s`: the total weight of the
samples that are at most `s`. -/
def cumWeight (samples ws : List ℚ) (s : ℚ) : ℚ :=
  (((samples.zip ws).filter fun p => decide (p.1 ≤ s)).map fun p => p.2).sum

/-- The value `s` reaches half of the total weight. -/
def reachesHalf (samples ws : List ℚ) (s : ℚ) : Prop :=
  ws.sum / 2 ≤ cumWeight samples ws s

instance (samples ws : List ℚ) (s : ℚ) : Decidable (reachesHalf samples ws s) := by
  unfold reachesHalf; infer_instance

/-- The least element of `x :: xs`. -/
def leastOf (x : ℚ) (xs : List ℚ) : ℚ :=
  xs.foldl min x

/-- The greatest element of `x :: xs`. -/
def greatestOf (x : ℚ) (xs : List ℚ) : ℚ :=
  xs.foldl max x

/-- Modelled from the spec: part of `Laplace.Fit`, which is not among the
sources.  The empirical weighted median: the smallest sample whose cumulative
weight reaches half the total weight.  When no sample does (which needs a
negative total weight) the largest sample is taken; 0 for no samples. -/
def weightedMedian (samples ws : List ℚ) : ℚ :=
  match samples.filter fun s => decide (reachesHalf samples ws s) with
  | c :: cs => leastOf c cs
  | [] =>
    match samples with
    | x :: xs => greatestOf x xs
    | [] => 0

/-- Modelled from the spec: part of `Laplace.Fit`, which is not among the
sources.  The weighted mean of `|sample - mu|`. -/
def meanAbsDev (samples ws : List ℚ) (mu : ℚ) : ℚ :=
  ((samples.zip ws).map fun p => p.2 * |p.1 - mu|).sum / ws.sum

/-- Modelled from the spec: the method `Laplace.Fit` of stat/distuv, whose
source file is not part of the sources (only its tests in laplace_test.go
are).  The two panics are those `TestLaplaceFitPanic` names, "len(sample) !=
len(weights)" and "len(sample) == 0"; the estimates are the empirical
weighted median of the samples and the weighted mean absolute deviation from
it.  A `nil` weight slice is `none`. -/
def Laplace.Fit (_l : Laplace) (samples : List ℚ) (weights : Option (List ℚ)) :
    Except FitPanic Laplace :=
  match weights with
  | some ws =>
    if samples.length ≠ ws.length then Except.error FitPanic.badLength
    else if samples.length = 0 then Except.error FitPanic.badNoSamples
    else
      let mu := weightedMedian samples ws
      Except.ok ⟨mu, meanAbsDev samples ws mu⟩
  | none =>
    if samples.length = 0 then Except.error FitPanic.badNoSamples
    else
      let ws := effWeights samples none
      let mu := weightedMedian samples ws
      Except.ok ⟨mu, meanAbsDev samples ws mu⟩

/-- Whether a call of `Fit` panics. -/
def fitPanics (l : Laplace) (samples : List ℚ) (weights : Option (List ℚ)) : Bool :=
  match l.Fit samples weights with
  | Except.error _ => true
  | Except.ok _ => false

/-- One row of the table of `TestLaplaceFit` (laplace_test.go lines
116-121). -/
structure FitRow where
  samples : List ℚ
  weights : Option (List ℚ)
  wantMu : ℚ
  wantScale : ℚ

/-- The table of `TestLaplaceFit`, laplace_test.go lines 122-151. -/
def laplaceFitTable : List FitRow :=
  [ ⟨[10, 1, 1], none, 1, 3⟩,
    ⟨[10, 1, 1], some [10, 10, 10], 1, 3⟩,
    ⟨[10, 1, 1], some [0, 1, 1], 1, 0⟩,
    ⟨[1, 1, 10], some [1, 1, 0], 1, 0⟩,
    ⟨[10], none, 10, 0⟩ ]

/-- The body of the loop of `TestLaplaceFit` (laplace_test.go lines
154-161) passes for a row: `d := Laplace{}; d.Fit(samples, weights)` returns
and both comparisons with the wanted values succeed (the tolerance 1e-10 is
not needed in exact arithmetic). -/
def fitRowPasses (r : FitRow) : Prop :=
  (⟨0, 0⟩ : Laplace).Fit r.samples r.weights = Except.ok ⟨r.wantMu, r.wantScale⟩

end Gonum

namespace Gonum

/-! ## Lemmas on traces -/

theorem callsOf_nil : callsOf [] = [] := rfl

theorem callsOf_call_cons (a : CallArgs) (es : List Event) :
    callsOf (Event.call a :: es) = a :: callsOf es := rfl

theorem callsOf_check_cons (c : Check) (es : List Event) :
    callsOf (Event.check c :: es) = callsOf es := rfl

theorem callsOf_errorf_cons (f : Failure) (es : List Event) :
    callsOf (Event.errorf f :: es) = callsOf es := rfl

theorem callsOf_append (xs ys : List Event) :
    callsOf (xs ++ ys) = callsOf xs ++ callsOf ys := by
  induction xs with
  | nil => rfl
  | cons x xs ih => cases x <;> simp [callsOf, ih]

theorem callsOf_runCheck (passes : Check → Bool) (cas : Nat) (c : Check) :
    callsOf (runCheck passes cas c) = [] := by
  unfold runCheck
  split <;> simp [callsOf]

theorem callsOf_flatMap_runCheck (passes : Check → Bool) (cas : Nat) (idxs : List Int) :
    callsOf (idxs.flatMap fun i => runCheck passes cas (Check.alphaBeta i)) = [] := by
  induction idxs with
  | nil => rfl
  | cons x xs ih =>
    rw [List.flatMap_cons, callsOf_append, callsOf_runCheck, ih]
    rfl

theorem alphaBetaChecked_append (xs ys : List Event) :
    alphaBetaChecked (xs ++ ys) = alphaBetaChecked xs ++ alphaBetaChecked ys := by
  induction xs with
  | nil => rfl
  | cons x xs ih =>
    cases x with
    | call a => simpa [alphaBetaChecked] using ih
    | errorf f => simpa [alphaBetaChecked] using ih
    | check c => cases c <;> simpa [alphaBetaChecked] using ih

theorem alphaBetaChecked_runCheck_alphaBeta (passes : Check → Bool) (cas : Nat) (i : Int) :
    alphaBetaChecked (runCheck passes cas (Check.alphaBeta i)) = [i] := by
  unfold runCheck
  split <;> simp [alphaBetaChecked]

theorem alphaBetaChecked_flatMap_runCheck (passes : Check → Bool) (cas : Nat)
    (idxs : List Int) :
    alphaBetaChecked (idxs.flatMap fun i => runCheck passes cas (Check.alphaBeta i))
      = idxs := by
  induction idxs with
  | nil => rfl
  | cons x xs ih =>
    rw [List.flatMap_cons, alphaBetaChecked_append, alphaBetaChecked_runCheck_alphaBeta, ih]
    rfl

/-- The calls `Dggsvd3Test` makes in one iteration. -/
theorem callsOf_dggsvd3Case {F : Type} (toInt : F → Int) (maxLen : Int)
    (passes : Check → Bool) (cas : Nat) (test : Dggsvd3Row) (work0 : F) (ret : Dggsvd3Ret) :
    callsOf (dggsvd3Case toInt maxLen passes cas test work0 ret).events =
      if makePanics maxLen (toInt work0) then [dggsvd3Args test (-1) 1]
      else [dggsvd3Args test (-1) 1, dggsvd3Args test (toInt work0) (toInt work0).toNat] := by
  unfold dggsvd3Case
  by_cases hlw : makePanics maxLen (toInt work0)
  · simp only [hlw, if_true, callsOf_call_cons, callsOf_nil]
  · cases hok : ret.ok
    · simp only [hlw, if_false, Bool.not_false, if_true, callsOf_append, callsOf_call_cons,
        callsOf_nil]
      cases test.ok <;> simp [callsOf_errorf_cons, callsOf_nil]
    · simp only [hlw, if_false, Bool.not_true, Bool.false_eq_true]
      cases alphaBetaIndices test.n test.m ret.k ret.l <;>
        simp only [callsOf_append, callsOf_runCheck, callsOf_flatMap_runCheck,
          callsOf_call_cons, callsOf_nil, List.append_nil, List.singleton_append]

/-- The calls `Dggsvp3Test` makes in one iteration. -/
theorem callsOf_dggsvp3Case {F : Type} (toInt : F → Int) (maxLen : Int)
    (passes : Check → Bool) (cas : Nat) (test : Dggsvp3Row) (work0 : F) :
    callsOf (dggsvp3Case toInt maxLen passes cas test work0).events =
      if makePanics maxLen (toInt work0) then [dggsvp3Args test (-1) 1]
      else [dggsvp3Args test (-1) 1, dggsvp3Args test (toInt work0) (toInt work0).toNat] := by
  unfold dggsvp3Case
  by_cases hlw : makePanics maxLen (toInt work0)
  · simp only [hlw, if_true, callsOf_call_cons, callsOf_nil]
  · simp only [hlw, if_false, callsOf_append, callsOf_runCheck, callsOf_call_cons,
      callsOf_nil, List.append_nil, List.singleton_append]

/-- Membership in the index list of the alpha/beta loop. -/
theorem mem_alphaBetaIndices {n m k l : Int} {idxs : List Int}
    (h : alphaBetaIndices n m k l = some idxs) (i : Int) :
    i ∈ idxs ↔ k ≤ i ∧ i < min (k + l) m := by
  rw [lt_min_iff]
  unfold alphaBetaIndices at h
  by_cases hm : m - k - l ≥ 0
  · simp only [hm, if_true, sliceLen] at h
    split at h
    · simp only [Option.map_some', Option.some.injEq] at h
      subst h
      simp only [List.mem_map, List.mem_range]
      constructor
      · rintro ⟨t, ht, rfl⟩
        omega
      · intro hi
        exact ⟨(i - k).toNat, by omega, by omega⟩
    · simp at h
  · simp only [hm, if_false, sliceLen] at h
    split at h
    · simp only [Option.map_some', Option.some.injEq] at h
      subst h
      simp only [List.mem_map, List.mem_range]
      constructor
      · rintro ⟨t, ht, rfl⟩
        omega
      · intro hi
        exact ⟨(i - k).toNat, by omega, by omega⟩
    · simp at h

/-- The slice expression of the alpha/beta loop is in bounds for rank
indices with `0 <= k <= m`, `0 <= l` and `k + l <= n`. -/
theorem alphaBetaIndices_isSome {n m k l : Int} (hk : 0 ≤ k) (hl : 0 ≤ l) (hkm : k ≤ m)
    (hn : k + l ≤ n) : ∃ idxs, alphaBetaIndices n m k l = some idxs := by
  unfold alphaBetaIndices
  by_cases hm : m - k - l ≥ 0
  · have : 0 ≤ k ∧ k ≤ k + l ∧ k + l ≤ n := ⟨hk, by omega, hn⟩
    simp [hm, sliceLen, this]
  · have : 0 ≤ k ∧ k ≤ m ∧ m ≤ n := ⟨hk, hkm, by omega⟩
    simp [hm, sliceLen, this]

/-- The run of an iteration of `Dggsvd3Test` whose real call converged and
whose alpha slice is in bounds. -/
theorem dggsvd3Case_converged {F : Type} (toInt : F → Int) (maxLen : Int)
    (passes : Check → Bool) (cas : Nat) (test : Dggsvd3Row) (work0 : F) (ret : Dggsvd3Ret)
    (idxs : List Int)
    (hlw : 0 ≤ toInt work0) (hmax : toInt work0 ≤ maxLen) (hok : ret.ok = true)
    (hidx : alphaBetaIndices test.n test.m ret.k ret.l = some idxs) :
    (dggsvd3Case toInt maxLen passes cas test work0 ret).panicked = false ∧
      alphaBetaChecked (dggsvd3Case toInt maxLen passes cas test work0 ret).events = idxs := by
  unfold dggsvd3Case
  have hlw2 : ¬ makePanics maxLen (toInt work0) := by unfold makePanics; omega
  have hother : ∀ c, (∀ i, c ≠ Check.alphaBeta i) →
      alphaBetaChecked (runCheck passes cas c) = [] := by
    intro c hc
    unfold runCheck
    cases c with
    | alphaBeta i => exact absurd rfl (hc i)
    | _ => split <;> simp [alphaBetaChecked]
  simp only [hlw2, hok, hidx, if_false, Bool.not_true, Bool.false_eq_true]
  refine ⟨trivial, ?_⟩
  have hcall : ∀ a es, alphaBetaChecked (Event.call a :: es) = alphaBetaChecked es :=
    fun _ _ => rfl
  simp only [alphaBetaChecked_append, alphaBetaChecked_flatMap_runCheck, hcall]
  rw [hother Check.orthoU (by intro i; simp), hother Check.orthoV (by intro i; simp),
    hother Check.orthoQ (by intro i; simp), hother Check.identityA (by intro i; simp),
    hother Check.identityB (by intro i; simp)]
  have hnil : alphaBetaChecked [] = [] := rfl
  simp [hnil]

/-! ## Claims on `Dggsvd3Test` and `Dggsvp3Test` -/

/-- C1 (amended): in an iteration of `Dggsvd3Test` whose real call reports
convergence with rank indices `0 <= k <= m`, `0 <= l`, `k + l <= n`, the
iteration does not panic and the alpha/beta check is performed at exactly
the indices `i` with `k <= i < min(k+l, m)`: the whole range `[k, k+l)` when
`k + l <= m`, and only `[k, m)` when `k + l > m`.  The real call is made:
`int(work[0])` is a length the allocation of `work` accepts. -/
theorem dggsvd3_alphaBeta_checked_indices {F : Type} (toInt : F → Int) (maxLen : Int)
    (passes : Check → Bool) (cas : Nat) (test : Dggsvd3Row) (work0 : F) (ret : Dggsvd3Ret)
    (hlw : 0 ≤ toInt work0) (hmax : toInt work0 ≤ maxLen) (hok : ret.ok = true)
    (hk : 0 ≤ ret.k) (hl : 0 ≤ ret.l)
    (hkm : ret.k ≤ test.m) (hn : ret.k + ret.l ≤ test.n) :
    (dggsvd3Case toInt maxLen passes cas test work0 ret).panicked = false ∧
      ∀ i : Int,
        i ∈ alphaBetaChecked (dggsvd3Case toInt maxLen passes cas test work0 ret).events ↔
          ret.k ≤ i ∧ i < min (ret.k + ret.l) test.m := by
  obtain ⟨idxs, hidx⟩ := alphaBetaIndices_isSome hk hl hkm hn
  obtain ⟨hp, hev⟩ :=
    dggsvd3Case_converged toInt maxLen passes cas test work0 ret idxs hlw hmax hok hidx
  refine ⟨hp, fun i => ?_⟩
  rw [hev]
  exact mem_alphaBetaIndices hidx i

/-- Witness for C1 (amended): the first row of the table (m = 3, n = 5) with
k = 2, l = 3. -/
theorem dggsvd3_alphaBeta_checked_indices_witness :
    (dggsvd3Case (fun x : Int => x) 1000 (fun _ => true) 0 ⟨3, 3, 5, 0, 0, 0, 0, 0, true⟩ 1
        ⟨2, 3, true⟩).panicked = false ∧
      ∀ i : Int, i ∈ alphaBetaChecked (dggsvd3Case (fun x : Int => x) 1000 (fun _ => true) 0
          ⟨3, 3, 5, 0, 0, 0, 0, 0, true⟩ 1 ⟨2, 3, true⟩).events ↔
        (2 : Int) ≤ i ∧ i < min (2 + 3) 3 :=
  dggsvd3_alphaBeta_checked_indices (fun x : Int => x) 1000 (fun _ => true) 0
    ⟨3, 3, 5, 0, 0, 0, 0, 0, true⟩ 1 ⟨2, 3, true⟩
    (by decide) (by decide) rfl (by decide) (by decide) (by decide) (by decide)

/-- C1 fails as stated: for the first row of the table (m = 3, p = 3, n = 5)
and a converged call returning k = 2, l = 3, the alpha/beta check is
performed at index 2 only, so the checked indices are not the range
`[k, k+l) = [2, 5)`. -/
theorem dggsvd3_alphaBeta_not_whole_range :
    alphaBetaChecked (dggsvd3Case (fun x : Int => x) 1000 (fun _ => true) 0
        ⟨3, 3, 5, 0, 0, 0, 0, 0, true⟩ 1 ⟨2, 3, true⟩).events = [2] ∧
      ¬ (∀ i : Int, i ∈ alphaBetaChecked (dggsvd3Case (fun x : Int => x) 1000 (fun _ => true) 0
          ⟨3, 3, 5, 0, 0, 0, 0, 0, true⟩ 1 ⟨2, 3, true⟩).events ↔
        (2 : Int) ≤ i ∧ i < 2 + 3) := by
  have h : alphaBetaChecked (dggsvd3Case (fun x : Int => x) 1000 (fun _ => true) 0
      ⟨3, 3, 5, 0, 0, 0, 0, 0, true⟩ 1 ⟨2, 3, true⟩).events = [2] := by decide
  refine ⟨h, fun hall => ?_⟩
  have h3 := (hall 3).2 ⟨by decide, by decide⟩
  rw [h] at h3
  exact absurd h3 (by decide)

/-- C3: for every row of the tables of `Dggsvd3Test` and `Dggsvp3Test`, every
call the driver makes for that row passes leading dimensions that satisfy
the dense-matrix invariant `stride >= max(1, cols)`: `lda >= max(1,n)`,
`ldb >= max(1,n)`, `ldu >= max(1,m)`, `ldv >= max(1,p)`, `ldq >= max(1,n)`. -/
theorem driver_calls_strides_valid :
    (∀ test ∈ dggsvd3Table, ∀ (F : Type) (toInt : F → Int) (maxLen : Int)
        (passes : Check → Bool) (cas : Nat) (work0 : F) (ret : Dggsvd3Ret),
        ∀ c ∈ callsOf (dggsvd3Case toInt maxLen passes cas test work0 ret).events,
          max 1 c.n ≤ c.lda ∧ max 1 c.n ≤ c.ldb ∧ max 1 c.m ≤ c.ldu ∧
            max 1 c.p ≤ c.ldv ∧ max 1 c.n ≤ c.ldq) ∧
    (∀ test ∈ dggsvp3Table, ∀ (F : Type) (toInt : F → Int) (maxLen : Int)
        (passes : Check → Bool) (cas : Nat) (work0 : F),
        ∀ c ∈ callsOf (dggsvp3Case toInt maxLen passes cas test work0).events,
          max 1 c.n ≤ c.lda ∧ max 1 c.n ≤ c.ldb ∧ max 1 c.m ≤ c.ldu ∧
            max 1 c.p ≤ c.ldv ∧ max 1 c.n ≤ c.ldq) := by
  have h3 : ∀ t ∈ dggsvd3Table, (dggsvd3Args t 0 0).stridesValid := by decide
  have hp : ∀ t ∈ dggsvp3Table, (dggsvp3Args t 0 0).stridesValid := by decide
  constructor
  · intro test ht F toInt maxLen passes cas work0 ret c hc
    rw [callsOf_dggsvd3Case] at hc
    have key := h3 test ht
    split at hc
    · simp only [List.mem_singleton] at hc
      subst hc
      exact key
    · simp only [List.mem_cons, List.mem_singleton, List.not_mem_nil, or_false] at hc
      rcases hc with rfl | rfl <;> exact key
  · intro test ht F toInt maxLen passes cas work0 c hc
    rw [callsOf_dggsvp3Case] at hc
    have key := hp test ht
    split at hc
    · simp only [List.mem_singleton] at hc
      subst hc
      exact key
    · simp only [List.mem_cons, List.mem_singleton, List.not_mem_nil, or_false] at hc
      rcases hc with rfl | rfl <;> exact key

/-- Witness for C3: the query call of the row (m, p, n) = (10, 5, 5) with
padded strides, in `Dggsvd3Test`. -/
theorem driver_calls_strides_valid_witness :
    max 1 (dggsvd3Args ⟨10, 5, 5, 10, 10, 20, 10, 10, true⟩ (-1) 1).n
      ≤ (dggsvd3Args ⟨10, 5, 5, 10, 10, 20, 10, 10, true⟩ (-1) 1).lda :=
  (driver_calls_strides_valid.1 ⟨10, 5, 5, 10, 10, 20, 10, 10, true⟩ (by decide) Int
    (fun x => x) 1000 (fun _ => true) 15 1 ⟨0, 5, true⟩
    (dggsvd3Args ⟨10, 5, 5, 10, 10, 20, 10, 10, true⟩ (-1) 1) (by decide)).1

/-- The five (m, p, n) combinations named for `Dggsvd3Test`. -/
theorem dggsvd3_dims_subset :
    ∀ t ∈ dggsvd3Table,
      t.dims ∈ [((3 : Int), (3 : Int), (5 : Int)), (5, 5, 5), (5, 5, 10), (10, 5, 5),
        (10, 10, 10)] := by
  decide

/-- C4 (amended): the (m, p, n) combinations in the table of `Dggsvd3Test`
are exactly (3,3,5), (5,5,5), (5,5,10), (10,5,5), (10,10,10); every one of
them occurs with tight strides; every one of them other than (3,3,5) occurs
also with padded strides; and (3,3,5) occurs with tight strides only. -/
theorem dggsvd3_table_dims_and_strides :
    (∀ t ∈ dggsvd3Table,
      t.dims ∈ [((3 : Int), (3 : Int), (5 : Int)), (5, 5, 5), (5, 5, 10), (10, 5, 5),
        (10, 10, 10)]) ∧
    (∀ d ∈ [((3 : Int), (3 : Int), (5 : Int)), (5, 5, 5), (5, 5, 10), (10, 5, 5),
        (10, 10, 10)],
      ∃ t ∈ dggsvd3Table, t.dims = d ∧ tightStrides (dggsvd3Args t (-1) 1)) ∧
    (∀ d ∈ [((5 : Int), (5 : Int), (5 : Int)), (5, 5, 10), (10, 5, 5), (10, 10, 10)],
      ∃ t ∈ dggsvd3Table, t.dims = d ∧ paddedStrides (dggsvd3Args t (-1) 1)) ∧
    (∀ t ∈ dggsvd3Table, t.dims = (3, 3, 5) → tightStrides (dggsvd3Args t (-1) 1)) := by
  refine ⟨dggsvd3_dims_subset, ?_, ?_, ?_⟩ <;> decide

/-- Witness for C4 (amended): the combination (5,5,10) occurs with padded
strides. -/
theorem dggsvd3_table_dims_and_strides_witness :
    ∃ t ∈ dggsvd3Table, t.dims = (5, 5, 10) ∧ paddedStrides (dggsvd3Args t (-1) 1) :=
  dggsvd3_table_dims_and_strides.2.2.1 (5, 5, 10) (by decide)

/-- C4 fails as stated: the combination (3,3,5) is in the table of
`Dggsvd3Test`, and no row of the table with that combination has padded
strides. -/
theorem dggsvd3_table_335_never_padded :
    (∃ t ∈ dggsvd3Table, t.dims = (3, 3, 5)) ∧
      ¬ ∃ t ∈ dggsvd3Table, t.dims = (3, 3, 5) ∧ paddedStrides (dggsvd3Args t (-1) 1) := by
  constructor <;> decide

/-- C8: in an iteration of `Dggsvd3Test` whose real call returns ok = false,
no check is performed, the iteration does not panic, and what is recorded
with `t.Errorf` is the non-convergence failure of that case exactly when the
row expects ok = true (and nothing otherwise); every row of the table expects
ok = true, so for a row of the table the failure is recorded.  The real call
is made: `int(work[0])` is a length the allocation of `work` accepts. -/
theorem dggsvd3_not_converged {F : Type} (toInt : F → Int) (maxLen : Int)
    (passes : Check → Bool) (cas : Nat) (test : Dggsvd3Row) (work0 : F) (ret : Dggsvd3Ret)
    (hlw : 0 ≤ toInt work0) (hmax : toInt work0 ≤ maxLen) (hok : ret.ok = false) :
    (∀ c, Event.check c ∉ (dggsvd3Case toInt maxLen passes cas test work0 ret).events) ∧
    (dggsvd3Case toInt maxLen passes cas test work0 ret).panicked = false ∧
    (∀ f, Event.errorf f ∈ (dggsvd3Case toInt maxLen passes cas test work0 ret).events ↔
      (test.ok = true ∧ f = Failure.notConverged cas)) ∧
    (∀ t ∈ dggsvd3Table, t.ok = true) ∧
    (test ∈ dggsvd3Table →
      Event.errorf (Failure.notConverged cas) ∈
        (dggsvd3Case toInt maxLen passes cas test work0 ret).events) := by
  have hlw2 : ¬ makePanics maxLen (toInt work0) := by unfold makePanics; omega
  have htab : ∀ t ∈ dggsvd3Table, t.ok = true := by decide
  have hev : (dggsvd3Case toInt maxLen passes cas test work0 ret) =
      ⟨[Event.call (dggsvd3Args test (-1) 1),
        Event.call (dggsvd3Args test (toInt work0) (toInt work0).toNat)]
        ++ (if test.ok then [Event.errorf (Failure.notConverged cas)] else []), false⟩ := by
    unfold dggsvd3Case
    simp only [hlw2, hok, if_false, Bool.not_false, if_true, List.singleton_append]
  rw [hev]
  refine ⟨?_, rfl, ?_, htab, ?_⟩
  · intro c
    cases test.ok <;> simp
  · intro f
    cases test.ok <;> simp
  · intro ht
    simp [htab test ht]

/-- Witness for C8: the first row of the table with a real call that did not
converge. -/
theorem dggsvd3_not_converged_witness :
    Event.errorf (Failure.notConverged 0) ∈
      (dggsvd3Case (fun x : Int => x) 1000 (fun _ => true) 0 ⟨3, 3, 5, 0, 0, 0, 0, 0, true⟩ 1
        ⟨0, 0, false⟩).events :=
  (dggsvd3_not_converged (fun x : Int => x) 1000 (fun _ => true) 0
    ⟨3, 3, 5, 0, 0, 0, 0, 0, true⟩ 1 ⟨0, 0, false⟩ (by decide) (by decide) rfl).2.2.2.2
    (by decide)

/-- C10 (amended): in every iteration of `Dggsvd3Test` and of `Dggsvp3Test`
the first call is the query call, with `lwork = -1` and a work buffer of
length 1.  When `lwork := int(work[0])` is a length the allocation accepts
(`0 <= lwork <= maxLen`), the calls are exactly the query call and the real
call, and the real call has `lwork` equal to that value and a freshly
allocated work buffer of length `lwork`.  Otherwise (`lwork` negative or over
the allocation limit) `make([]float64, lwork)` panics and the query call is
the only call. -/
theorem drivers_workspace_protocol {F : Type} (toInt : F → Int) (maxLen : Int)
    (passes : Check → Bool) (cas : Nat) (work0 : F) :
    (∀ (test : Dggsvd3Row) (ret : Dggsvd3Ret),
      ∃ q, (callsOf (dggsvd3Case toInt maxLen passes cas test work0 ret).events).head?
          = some q ∧
        q.lwork = -1 ∧ q.workLen = 1 ∧
        (0 ≤ toInt work0 ∧ toInt work0 ≤ maxLen → ∃ r,
          callsOf (dggsvd3Case toInt maxLen passes cas test work0 ret).events = [q, r] ∧
          r.lwork = toInt work0 ∧ (r.workLen : Int) = r.lwork) ∧
        (toInt work0 < 0 ∨ maxLen < toInt work0 →
          callsOf (dggsvd3Case toInt maxLen passes cas test work0 ret).events = [q] ∧
          (dggsvd3Case toInt maxLen passes cas test work0 ret).panicked = true)) ∧
    (∀ (test : Dggsvp3Row),
      ∃ q, (callsOf (dggsvp3Case toInt maxLen passes cas test work0).events).head?
          = some q ∧
        q.lwork = -1 ∧ q.workLen = 1 ∧
        (0 ≤ toInt work0 ∧ toInt work0 ≤ maxLen → ∃ r,
          callsOf (dggsvp3Case toInt maxLen passes cas test work0).events = [q, r] ∧
          r.lwork = toInt work0 ∧ (r.workLen : Int) = r.lwork) ∧
        (toInt work0 < 0 ∨ maxLen < toInt work0 →
          callsOf (dggsvp3Case toInt maxLen passes cas test work0).events = [q] ∧
          (dggsvp3Case toInt maxLen passes cas test work0).panicked = true)) := by
  constructor
  · intro test ret
    refine ⟨dggsvd3Args test (-1) 1, ?_, rfl, rfl, ?_, ?_⟩
    · rw [callsOf_dggsvd3Case]
      split <;> rfl
    · intro h
      have h2 : ¬ makePanics maxLen (toInt work0) := by unfold makePanics; omega
      refine ⟨dggsvd3Args test (toInt work0) (toInt work0).toNat, ?_, rfl, ?_⟩
      · rw [callsOf_dggsvd3Case, if_neg h2]
      · exact Int.toNat_of_nonneg h.1
    · intro h
      have h2 : makePanics maxLen (toInt work0) := h
      refine ⟨by rw [callsOf_dggsvd3Case, if_pos h2], ?_⟩
      unfold dggsvd3Case
      simp only [h2, if_true]
  · intro test
    refine ⟨dggsvp3Args test (-1) 1, ?_, rfl, rfl, ?_, ?_⟩
    · rw [callsOf_dggsvp3Case]
      split <;> rfl
    · intro h
      have h2 : ¬ makePanics maxLen (toInt work0) := by unfold makePanics; omega
      refine ⟨dggsvp3Args test (toInt work0) (toInt work0).toNat, ?_, rfl, ?_⟩
      · rw [callsOf_dggsvp3Case, if_neg h2]
      · exact Int.toNat_of_nonneg h.1
    · intro h
      have h2 : makePanics maxLen (toInt work0) := h
      refine ⟨by rw [callsOf_dggsvp3Case, if_pos h2], ?_⟩
      unfold dggsvp3Case
      simp only [h2, if_true]

/-- Witness for C10 (amended): the first row of the table of `Dggsvd3Test`
with a query call that leaves 12 in `work[0]`. -/
theorem drivers_workspace_protocol_witness :
    ∃ q r : CallArgs,
      callsOf (dggsvd3Case (fun x : Int => x) 1000 (fun _ => true) 0
        ⟨3, 3, 5, 0, 0, 0, 0, 0, true⟩ 12 ⟨2, 3, true⟩).events = [q, r] ∧
      q.lwork = -1 ∧ q.workLen = 1 ∧ r.lwork = 12 ∧ (r.workLen : Int) = r.lwork := by
  obtain ⟨q, _, h1, h2, h3, _⟩ :=
    (drivers_workspace_protocol (fun x : Int => x) 1000 (fun _ => true) 0 12).1
      ⟨3, 3, 5, 0, 0, 0, 0, 0, true⟩ ⟨2, 3, true⟩
  obtain ⟨r, hr, hr1, hr2⟩ := h3 (by decide)
  exact ⟨q, r, hr, h1, h2, hr1, hr2⟩

/-- C10 fails as stated: in an iteration of `Dggsvd3Test` (first row of the
table) whose query call leaves -1 in `work[0]`, the allocation
`make([]float64, -1)` panics, the query call is the only call, and no real
call with `len(work) = lwork` is made; the same holds in `Dggsvp3Test`. -/
theorem drivers_no_real_call :
    callsOf (dggsvd3Case (fun x : Int => x) 1000 (fun _ => true) 0
        ⟨3, 3, 5, 0, 0, 0, 0, 0, true⟩ (-1) ⟨2, 3, true⟩).events
      = [dggsvd3Args ⟨3, 3, 5, 0, 0, 0, 0, 0, true⟩ (-1) 1] ∧
    (dggsvd3Case (fun x : Int => x) 1000 (fun _ => true) 0
        ⟨3, 3, 5, 0, 0, 0, 0, 0, true⟩ (-1) ⟨2, 3, true⟩).panicked = true ∧
    callsOf (dggsvp3Case (fun x : Int => x) 1000 (fun _ => true) 0
        ⟨3, 3, 5, 0, 0, 0, 0, 0⟩ (-1)).events
      = [dggsvp3Args ⟨3, 3, 5, 0, 0, 0, 0, 0⟩ (-1) 1] ∧
    (dggsvp3Case (fun x : Int => x) 1000 (fun _ => true) 0
        ⟨3, 3, 5, 0, 0, 0, 0, 0⟩ (-1)).panicked = true ∧
    ¬ ∃ r ∈ callsOf (dggsvd3Case (fun x : Int => x) 1000 (fun _ => true) 0
        ⟨3, 3, 5, 0, 0, 0, 0, 0, true⟩ (-1) ⟨2, 3, true⟩).events,
      r.lwork = -1 ∧ (r.workLen : Int) = r.lwork := by
  refine ⟨by decide, by decide, by decide, by decide, by decide⟩

/-! ## The fill loops of `testZtbmv` -/

theorem wrapInt_eq {x : Int} (h1 : minInt ≤ x) (h2 : x ≤ maxInt) : wrapInt x = x := by
  unfold wrapInt
  unfold minInt at h1
  unfold maxInt at h2
  omega

theorem andThen_ok (a : List Write) (s : FillRun) :
    FillRun.andThen ⟨a, false⟩ s = ⟨a ++ s.writes, s.panicked⟩ := by
  simp [FillRun.andThen]

theorem andThen_panic (r s : FillRun) (h : r.panicked = true) : r.andThen s = r := by
  simp [FillRun.andThen, h]

/-- Passes none of which panics: their assignments joined, no panic. -/
theorem loopPasses_ok (fuel : Nat) (j : Int) (body : Int → FillRun) (w : Int → List Write)
    (h : ∀ t : Nat, t < fuel → body (j + (t : Int)) = ⟨w (j + (t : Int)), false⟩) :
    loopPasses fuel j body =
      ⟨(List.range fuel).flatMap (fun (t : Nat) => w (j + (t : Int))), false⟩ := by
  induction fuel generalizing j with
  | zero => rfl
  | succ f ih =>
    have h0 : body j = ⟨w j, false⟩ := by simpa using h 0 (Nat.succ_pos f)
    have e2 : ∀ t : Nat, j + ((t + 1 : Nat) : Int) = j + 1 + (t : Int) := by
      intro t
      push_cast
      ring
    have ih' := ih (j + 1) (fun t ht => by
      have h1 := h (t + 1) (Nat.succ_lt_succ ht)
      rw [e2] at h1
      exact h1)
    show (body j).andThen (loopPasses f (j + 1) body) = _
    rw [h0, ih', andThen_ok, List.range_succ_eq_map, List.flatMap_cons, List.flatMap_map]
    simp only [Nat.succ_eq_add_one, e2, Nat.cast_zero, add_zero]

/-- A loop none of whose passes panics. -/
theorem forLoop_ok (lo hi : Int) (body : Int → FillRun) (w : Int → List Write)
    (h : ∀ j, lo ≤ j → j < hi → body j = ⟨w j, false⟩) :
    forLoop lo hi body = ⟨concatPasses lo hi w, false⟩ := by
  unfold forLoop concatPasses
  apply loopPasses_ok
  intro t ht
  apply h <;> omega

/-- A loop whose first pass panics. -/
theorem forLoop_panic_first (lo hi : Int) (body : Int → FillRun) (hlt : lo < hi)
    (hp : (body lo).panicked = true) : forLoop lo hi body = body lo := by
  unfold forLoop
  obtain ⟨f, hf⟩ : ∃ f, (hi - lo).toNat = f + 1 := ⟨(hi - lo).toNat - 1, by omega⟩
  rw [hf]
  show (body lo).andThen _ = _
  exact andThen_panic _ _ hp

/-- An assignment to an entry of the n x n matrix stored in a slice that
holds it. -/
theorem assign_ok (n alen i j : Int) (v : Fill) (hi0 : 0 ≤ i) (hin : i < n) (hj0 : 0 ≤ j)
    (hjn : j < n) (hlen : (n - 1) * max 1 n + n ≤ alen) (halen : alen ≤ maxInt) :
    assign alen (max 1 n) i j v = ⟨[⟨i, j, i * max 1 n + j, v⟩], false⟩ := by
  have hL : 0 ≤ max 1 n := le_trans (by decide) (le_max_left 1 n)
  have h1 : 0 ≤ i * max 1 n := mul_nonneg hi0 hL
  have h2 : i * max 1 n ≤ (n - 1) * max 1 n :=
    mul_le_mul_of_nonneg_right (by omega) hL
  have hmin : minInt ≤ 0 := by decide
  have w1 : wrapInt (i * max 1 n) = i * max 1 n :=
    wrapInt_eq (le_trans hmin h1) (by omega)
  have w2 : wrapInt (i * max 1 n + j) = i * max 1 n + j :=
    wrapInt_eq (le_trans hmin (by omega)) (by omega)
  have hr : 0 ≤ i * max 1 n + j ∧ i * max 1 n + j < alen := ⟨by omega, by omega⟩
  unfold assign
  simp only [w1, w2, hr, and_self, if_true]

/-- One pass of the outer loop when no sum wraps and the slice holds the
matrix. -/
theorem fillRow_ok (uplo : Uplo) (n k alen i : Int) (hk : 0 ≤ k) (hkmax : k ≤ maxInt)
    (hnmax : n ≤ maxInt) (hov : uplo = Uplo.Upper → n + k ≤ maxInt)
    (hlen : (n - 1) * max 1 n + n ≤ alen) (halen : alen ≤ maxInt)
    (hi0 : 0 ≤ i) (hin : i < n) :
    fillRow uplo n k alen i = ⟨rowAssignments uplo n k i, false⟩ := by
  have hmin : minInt = -9223372036854775808 := rfl
  have hmaxv : maxInt = 9223372036854775807 := rfl
  cases uplo with
  | Upper =>
    have hnk := hov rfl
    have w1 : wrapInt (i + k) = i + k := wrapInt_eq (by omega) (by omega)
    have w2 : wrapInt (i + k + 1) = i + k + 1 := wrapInt_eq (by omega) (by omega)
    have l1 := forLoop_ok i (min n (i + k + 1))
      (fun j => assign alen (max 1 n) i j Fill.random)
      (fun j => [⟨i, j, i * max 1 n + j, Fill.random⟩])
      (fun j hj1 hj2 => assign_ok n alen i j _ hi0 hin (by omega)
        (lt_of_lt_of_le hj2 (min_le_left _ _)) hlen halen)
    have l2 := forLoop_ok (i + k + 1) n
      (fun j => assign alen (max 1 n) i j Fill.zero)
      (fun j => [⟨i, j, i * max 1 n + j, Fill.zero⟩])
      (fun j hj1 hj2 => assign_ok n alen i j _ hi0 hin (by omega) hj2 hlen halen)
    simp only [fillRow, rowAssignments, w1, w2, l1, l2, andThen_ok]
  | Lower =>
    have w1 : wrapInt (i - k) = i - k := wrapInt_eq (by omega) (by omega)
    have l1 := forLoop_ok 0 (i - k)
      (fun j => assign alen (max 1 n) i j Fill.zero)
      (fun j => [⟨i, j, i * max 1 n + j, Fill.zero⟩])
      (fun j hj1 hj2 => assign_ok n alen i j _ hi0 hin hj1 (by omega) hlen halen)
    have l2 := forLoop_ok (max 0 (i - k)) (i + 1)
      (fun j => assign alen (max 1 n) i j Fill.random)
      (fun j => [⟨i, j, i * max 1 n + j, Fill.random⟩])
      (fun j hj1 hj2 => assign_ok n alen i j _ hi0 hin
        (le_trans (le_max_left 0 (i - k)) hj1) (by omega) hlen halen)
    simp only [fillRow, rowAssignments, w1, l1, l2, andThen_ok]

/-- The fill loops when no sum wraps and the slice holds the matrix. -/
theorem fillWrites_ok (uplo : Uplo) (n k alen : Int) (hk : 0 ≤ k) (hkmax : k ≤ maxInt)
    (hnmax : n ≤ maxInt) (hov : uplo = Uplo.Upper → n + k ≤ maxInt)
    (hlen : (n - 1) * max 1 n + n ≤ alen) (halen : alen ≤ maxInt) :
    fillWrites uplo n k alen = ⟨concatPasses 0 n (rowAssignments uplo n k), false⟩ := by
  unfold fillWrites
  exact forLoop_ok 0 n _ _
    (fun i hi0 hin => fillRow_ok uplo n k alen i hk hkmax hnmax hov hlen halen hi0 hin)

theorem filter_concatPasses {α : Type} (p : α → Bool) (lo hi : Int) (w : Int → List α) :
    (concatPasses lo hi w).filter p = concatPasses lo hi (fun j => (w j).filter p) := by
  unfold concatPasses
  rw [List.filter_flatMap]

/-- Joined lists of which at most the one at `i` is not empty. -/
theorem concatPasses_single {α : Type} (lo hi i : Int) (w : Int → List α)
    (h : ∀ j, j ≠ i → w j = []) :
    concatPasses lo hi w = if lo ≤ i ∧ i < hi then w i else [] := by
  have key : ∀ len : Nat, ((List.range len).flatMap fun (t : Nat) => w (lo + (t : Int)))
      = if lo ≤ i ∧ i < lo + len then w i else [] := by
    intro len
    induction len with
    | zero =>
      have : ¬ (lo ≤ i ∧ i < lo + ((0 : Nat) : Int)) := by omega
      simp [this]
    | succ len ih =>
      rw [List.range_succ, List.flatMap_append, ih, List.flatMap_singleton]
      by_cases hi1 : lo + (len : Int) = i
      · have h1 : ¬ (lo ≤ i ∧ i < lo + (len : Int)) := by omega
        have h2 : lo ≤ i ∧ i < lo + ((len + 1 : Nat) : Int) := by omega
        rw [if_neg h1, if_pos h2, hi1]
        rfl
      · rw [h _ hi1, List.append_nil]
        by_cases h1 : lo ≤ i ∧ i < lo + (len : Int)
        · have h2 : lo ≤ i ∧ i < lo + ((len + 1 : Nat) : Int) := by omega
          rw [if_pos h1, if_pos h2]
        · have h2 : ¬ (lo ≤ i ∧ i < lo + ((len + 1 : Nat) : Int)) := by omega
          rw [if_neg h1, if_neg h2]
  unfold concatPasses
  rw [key]
  by_cases h1 : lo ≤ i ∧ i < hi
  · have h2 : lo ≤ i ∧ i < lo + (((hi - lo).toNat : Nat) : Int) := by omega
    rw [if_pos h1, if_pos h2]
  · have h2 : ¬ (lo ≤ i ∧ i < lo + (((hi - lo).toNat : Nat) : Int)) := by omega
    rw [if_neg h1, if_neg h2]

/-- The assignments to entry (i, j) among those of an inner loop that
assigns `v` to the entries (i', j') for j' from `lo` up to `hi`. -/
theorem filter_inner_loop (lo hi i' i j L : Int) (v : Fill) :
    (concatPasses lo hi (fun j' => [(⟨i', j', i' * L + j', v⟩ : Write)])).filter
        (fun w => decide (w.i = i ∧ w.j = j))
      = if i' = i ∧ lo ≤ j ∧ j < hi then [⟨i, j, i * L + j, v⟩] else [] := by
  rw [filter_concatPasses]
  by_cases hi' : i' = i
  · subst hi'
    rw [concatPasses_single lo hi j]
    · by_cases hj : lo ≤ j ∧ j < hi
      · simp [hj]
      · have : ¬ (i' = i' ∧ lo ≤ j ∧ j < hi) := fun h => hj h.2
        rw [if_neg hj, if_neg this]
    · intro j' hj'
      simp [hj']
  · have h1 : ¬ (i' = i ∧ lo ≤ j ∧ j < hi) := fun h => hi' h.1
    rw [if_neg h1, concatPasses_single lo hi j]
    · simp [hi']
    · intro j' _
      simp [hi']

/-- The assignments to entry (i, j) among those of pass `i'` of the outer
loop. -/
theorem filter_rowAssignments (uplo : Uplo) (n k i' i j : Int) :
    (rowAssignments uplo n k i').filter (fun w => decide (w.i = i ∧ w.j = j)) =
      match uplo with
      | Uplo.Upper =>
        (if i' = i ∧ i' ≤ j ∧ j < min n (i' + k + 1)
          then [⟨i, j, i * max 1 n + j, Fill.random⟩] else [])
        ++ (if i' = i ∧ i' + k + 1 ≤ j ∧ j < n
          then [⟨i, j, i * max 1 n + j, Fill.zero⟩] else [])
      | Uplo.Lower =>
        (if i' = i ∧ 0 ≤ j ∧ j < i' - k
          then [⟨i, j, i * max 1 n + j, Fill.zero⟩] else [])
        ++ (if i' = i ∧ max 0 (i' - k) ≤ j ∧ j < i' + 1
          then [⟨i, j, i * max 1 n + j, Fill.random⟩] else []) := by
  cases uplo <;>
    simp only [rowAssignments, List.filter_append, filter_inner_loop]

/-- C9 (amended): for `n` and `k >= 0` of the type `int`, with `n + k` not
over the largest `int` when `uplo` is upper (so that `i+k+1` does not wrap),
and a slice `a` that holds the n x n matrix with stride `max(1, n)`, the fill
loops of `testZtbmv` end without a panic and assign entry (i, j), at index
`i*lda+j`, exactly once when it lies in the referenced triangle (upper:
`0 <= i <= j < n`; lower: `0 <= j <= i < n`), a random value when
`|i - j| <= k` and zero otherwise, and never assign an entry outside the
referenced triangle. -/
theorem testZtbmv_fill_writes (uplo : Uplo) (n k alen : Int) (hk : 0 ≤ k)
    (hkmax : k ≤ maxInt) (hnmax : n ≤ maxInt) (hov : uplo = Uplo.Upper → n + k ≤ maxInt)
    (hlen : (n - 1) * max 1 n + n ≤ alen) (halen : alen ≤ maxInt) :
    (fillWrites uplo n k alen).panicked = false ∧
    ∀ i j : Int, writesAt uplo n k alen i j =
      if inTriangle uplo n i j then
        [⟨i, j, i * max 1 n + j, if |i - j| ≤ k then Fill.random else Fill.zero⟩]
      else [] := by
  have hfw := fillWrites_ok uplo n k alen hk hkmax hnmax hov hlen halen
  refine ⟨by rw [hfw], fun i j => ?_⟩
  unfold writesAt
  rw [hfw]
  show (concatPasses 0 n (rowAssignments uplo n k)).filter _ = _
  rw [filter_concatPasses, concatPasses_single 0 n i]
  · rw [filter_rowAssignments]
    cases uplo
    · simp only [inTriangle, abs_le, lt_min_iff, true_and]
      by_cases h0 : 0 ≤ i ∧ i < n
      · rw [if_pos h0]
        by_cases hb : i ≤ j ∧ j < n
        · by_cases hband : j < i + k + 1
          · have h1 : i ≤ j ∧ j < n ∧ j < i + k + 1 := ⟨hb.1, hb.2, hband⟩
            have h2 : ¬ (i + k + 1 ≤ j ∧ j < n) := by omega
            have h3 : 0 ≤ i ∧ i ≤ j ∧ j < n := ⟨h0.1, hb⟩
            have h4 : -k ≤ i - j ∧ i - j ≤ k := by omega
            rw [if_pos h1, if_neg h2, if_pos h3, if_pos h4]
            rfl
          · have h1 : ¬ (i ≤ j ∧ j < n ∧ j < i + k + 1) := by omega
            have h2 : i + k + 1 ≤ j ∧ j < n := ⟨by omega, hb.2⟩
            have h3 : 0 ≤ i ∧ i ≤ j ∧ j < n := ⟨h0.1, hb⟩
            have h4 : ¬ (-k ≤ i - j ∧ i - j ≤ k) := by omega
            rw [if_neg h1, if_pos h2, if_pos h3, if_neg h4]
            rfl
        · have h1 : ¬ (i ≤ j ∧ j < n ∧ j < i + k + 1) := by omega
          have h2 : ¬ (i + k + 1 ≤ j ∧ j < n) := by omega
          have h3 : ¬ (0 ≤ i ∧ i ≤ j ∧ j < n) := by omega
          rw [if_neg h1, if_neg h2, if_neg h3]
          rfl
      · have h3 : ¬ (0 ≤ i ∧ i ≤ j ∧ j < n) := by omega
        rw [if_neg h0, if_neg h3]
    · simp only [inTriangle, abs_le, max_le_iff, true_and]
      by_cases h0 : 0 ≤ i ∧ i < n
      · rw [if_pos h0]
        by_cases hb : 0 ≤ j ∧ j ≤ i
        · by_cases hband : j < i - k
          · have h1 : 0 ≤ j ∧ j < i - k := ⟨hb.1, hband⟩
            have h2 : ¬ ((0 ≤ j ∧ i - k ≤ j) ∧ j < i + 1) := by omega
            have h3 : 0 ≤ j ∧ j ≤ i ∧ i < n := ⟨hb.1, hb.2, h0.2⟩
            have h4 : ¬ (-k ≤ i - j ∧ i - j ≤ k) := by omega
            rw [if_pos h1, if_neg h2, if_pos h3, if_neg h4]
            rfl
          · have h1 : ¬ (0 ≤ j ∧ j < i - k) := by omega
            have h2 : (0 ≤ j ∧ i - k ≤ j) ∧ j < i + 1 :=
              ⟨⟨hb.1, by omega⟩, by omega⟩
            have h3 : 0 ≤ j ∧ j ≤ i ∧ i < n := ⟨hb.1, hb.2, h0.2⟩
            have h4 : -k ≤ i - j ∧ i - j ≤ k := by omega
            rw [if_neg h1, if_pos h2, if_pos h3, if_pos h4]
            rfl
        · have h1 : ¬ (0 ≤ j ∧ j < i - k) := by omega
          have h2 : ¬ ((0 ≤ j ∧ i - k ≤ j) ∧ j < i + 1) := by omega
          have h3 : ¬ (0 ≤ j ∧ j ≤ i ∧ i < n) := by omega
          rw [if_neg h1, if_neg h2, if_neg h3]
          rfl
      · have h3 : ¬ (0 ≤ j ∧ j ≤ i ∧ i < n) := by omega
        rw [if_neg h0, if_neg h3]
  · intro i' hi'
    rw [filter_rowAssignments]
    cases uplo <;> simp [hi']

/-- Witness for C9 (amended): n = 5, k = 1, upper triangle, a slice of 25
elements; entry (1, 3) lies outside the band and is assigned zero once, at
index 8. -/
theorem testZtbmv_fill_writes_witness :
    (fillWrites Uplo.Upper 5 1 25).panicked = false ∧
    writesAt Uplo.Upper 5 1 25 1 3 =
      if inTriangle Uplo.Upper 5 1 3 then
        [⟨1, 3, 1 * max 1 5 + 3, if |(1 : Int) - 3| ≤ 1 then Fill.random else Fill.zero⟩]
      else [] :=
  have h := testZtbmv_fill_writes Uplo.Upper 5 1 25 (by decide) (by decide) (by decide)
    (fun _ => by decide) (by decide) (by decide)
  ⟨h.1, h.2 1 3⟩

/-- C9 fails as stated: for n = 1 and k the largest `int` (upper triangle,
`a` of length 1), the sum `i+k+1` wraps to the smallest `int`, so the random
loop makes no pass, the zero loop starts at that index and panics, and entry
(0, 0) of the referenced triangle is never assigned. -/
theorem testZtbmv_fill_overflow :
    (0 : Int) ≤ maxInt ∧ inTriangle Uplo.Upper 1 0 0 ∧
    fillWrites Uplo.Upper 1 maxInt 1 = ⟨[], true⟩ ∧
    writesAt Uplo.Upper 1 maxInt 1 0 0 = [] := by
  have hw : wrapInt (wrapInt (0 + maxInt) + 1) = minInt := by decide
  have hrow : fillRow Uplo.Upper 1 maxInt 1 0 = ⟨[], true⟩ := by
    have hz : forLoop minInt 1 (fun j => assign 1 (max 1 1) 0 j Fill.zero) = ⟨[], true⟩ := by
      rw [forLoop_panic_first minInt 1 _ (by decide) (by decide)]
      decide
    have hr : forLoop 0 (min 1 minInt) (fun j => assign 1 (max 1 1) 0 j Fill.random)
        = ⟨[], false⟩ := by decide
    simp only [fillRow, hw, hr, hz, andThen_ok]
    rfl
  have hall : fillWrites Uplo.Upper 1 maxInt 1 = ⟨[], true⟩ := by
    unfold fillWrites
    rw [forLoop_panic_first 0 1 _ (by decide) (by rw [hrow])]
    exact hrow
  refine ⟨by decide, by decide, hall, ?_⟩
  unfold writesAt
  rw [hall]
  rfl

/-! ## `DegenerateInputError.Error` -/

/-- C7: for every value `e`, `DegenerateInputError(e).Error()` is the text
"variance too low: " followed by the `%v` text of `e` and nothing else; so
two values whose `%v` texts differ have different messages. -/
theorem DegenerateInputError_Error_text {F : Type} (fmtV : F → String) :
    (∀ e : F, DegenerateInputError.Error fmtV e = "variance too low: " ++ fmtV e) ∧
    (∀ e₁ e₂ : F, fmtV e₁ ≠ fmtV e₂ →
      DegenerateInputError.Error fmtV e₁ ≠ DegenerateInputError.Error fmtV e₂) := by
  have h : ∀ e : F, DegenerateInputError.Error fmtV e = "variance too low: " ++ fmtV e := by
    intro e
    apply String.ext
    simp [DegenerateInputError.Error, Sprintf, sprintfChars]
  refine ⟨h, fun e₁ e₂ hne heq => hne ?_⟩
  rw [h, h] at heq
  have hd := congrArg String.data heq
  simp only [String.data_append, List.append_cancel_left_eq] at hd
  exact String.ext hd

/-- Witness for C7: two values rendered as "0.5" and "1". -/
theorem DegenerateInputError_Error_text_witness :
    DegenerateInputError.Error (fun b : Bool => if b then "1" else "0.5") false ≠
      DegenerateInputError.Error (fun b : Bool => if b then "1" else "0.5") true :=
  (DegenerateInputError_Error_text (fun b : Bool => if b then "1" else "0.5")).2 false true
    (by decide)

/-! ## `Laplace.Fit` -/

theorem leastOf_mem (x : ℚ) (xs : List ℚ) : leastOf x xs ∈ x :: xs := by
  unfold leastOf
  induction xs generalizing x with
  | nil => simp
  | cons y ys ih =>
    rw [List.foldl_cons]
    have h := ih (min x y)
    rcases List.mem_cons.1 h with h | h
    · rcases min_choice x y with hm | hm
      · rw [h, hm]; simp
      · rw [h, hm]; simp
    · exact List.mem_cons_of_mem _ (List.mem_cons_of_mem _ h)

theorem leastOf_le (x : ℚ) (xs : List ℚ) : ∀ y ∈ x :: xs, leastOf x xs ≤ y := by
  unfold leastOf
  induction xs generalizing x with
  | nil => simp
  | cons z zs ih =>
    intro y hy
    rw [List.foldl_cons]
    have h := ih (min x z)
    rcases List.mem_cons.1 hy with rfl | hy
    · exact le_trans (h _ (List.mem_cons_self _ _)) (min_le_left _ _)
    · rcases List.mem_cons.1 hy with rfl | hy
      · exact le_trans (h _ (List.mem_cons_self _ _)) (min_le_right _ _)
      · exact h _ (List.mem_cons_of_mem _ hy)

theorem greatestOf_mem (x : ℚ) (xs : List ℚ) : greatestOf x xs ∈ x :: xs := by
  unfold greatestOf
  induction xs generalizing x with
  | nil => simp
  | cons y ys ih =>
    rw [List.foldl_cons]
    have h := ih (max x y)
    rcases List.mem_cons.1 h with h | h
    · rcases max_choice x y with hm | hm
      · rw [h, hm]; simp
      · rw [h, hm]; simp
    · exact List.mem_cons_of_mem _ (List.mem_cons_of_mem _ h)

theorem le_greatestOf (x : ℚ) (xs : List ℚ) : ∀ y ∈ x :: xs, y ≤ greatestOf x xs := by
  unfold greatestOf
  induction xs generalizing x with
  | nil => simp
  | cons z zs ih =>
    intro y hy
    rw [List.foldl_cons]
    have h := ih (max x z)
    rcases List.mem_cons.1 hy with rfl | hy
    · exact le_trans (le_max_left _ _) (h _ (List.mem_cons_self _ _))
    · rcases List.mem_cons.1 hy with rfl | hy
      · exact le_trans (le_max_right _ _) (h _ (List.mem_cons_self _ _))
      · exact h _ (List.mem_cons_of_mem _ hy)

/-- The cumulative weight of a value that no sample exceeds is the total
weight. -/
theorem cumWeight_of_all_le (samples ws : List ℚ) (s : ℚ) (hlen : ws.length = samples.length)
    (hs : ∀ x ∈ samples, x ≤ s) : cumWeight samples ws s = ws.sum := by
  unfold cumWeight
  have hf : (samples.zip ws).filter (fun p => decide (p.1 ≤ s)) = samples.zip ws := by
    rw [List.filter_eq_self]
    intro p hp
    have := hs p.1 (List.of_mem_zip hp).1
    simpa using this
  rw [hf]
  have hsnd : (samples.zip ws).map (fun p => p.2) = ws := by
    have := List.map_snd_zip samples ws (le_of_eq hlen)
    simpa using this
  rw [hsnd]

/-- The weighted median is the smallest sample that reaches half of a
non-negative total weight. -/
theorem weightedMedian_spec (samples ws : List ℚ) (hne : samples ≠ [])
    (hlen : ws.length = samples.length) (hpos : 0 ≤ ws.sum) :
    weightedMedian samples ws ∈ samples ∧
      reachesHalf samples ws (weightedMedian samples ws) ∧
      ∀ s ∈ samples, reachesHalf samples ws s → weightedMedian samples ws ≤ s := by
  obtain ⟨x, xs, rfl⟩ := List.exists_cons_of_ne_nil hne
  have hg : reachesHalf (x :: xs) ws (greatestOf x xs) := by
    unfold reachesHalf
    rw [cumWeight_of_all_le (x :: xs) ws _ hlen (le_greatestOf x xs)]
    linarith
  have hgm : greatestOf x xs ∈ (x :: xs).filter
      (fun s => decide (reachesHalf (x :: xs) ws s)) := by
    rw [List.mem_filter]
    exact ⟨greatestOf_mem x xs, by simpa using hg⟩
  unfold weightedMedian
  cases hc : (x :: xs).filter (fun s => decide (reachesHalf (x :: xs) ws s)) with
  | nil => rw [hc] at hgm; exact absurd hgm (List.not_mem_nil _)
  | cons c cs =>
    have hm := leastOf_mem c cs
    rw [← hc, List.mem_filter] at hm
    refine ⟨hm.1, by simpa using hm.2, ?_⟩
    intro s hs hr
    apply leastOf_le c cs
    rw [← hc, List.mem_filter]
    exact ⟨hs, by simpa using hr⟩

/-- What `Fit` returns once both guards are passed. -/
theorem fit_ok (l : Laplace) (samples : List ℚ) (weights : Option (List ℚ))
    (hne : samples ≠ []) (hlen : ∀ ws, weights = some ws → ws.length = samples.length) :
    l.Fit samples weights = Except.ok
      ⟨weightedMedian samples (effWeights samples weights),
        meanAbsDev samples (effWeights samples weights)
          (weightedMedian samples (effWeights samples weights))⟩ := by
  have h0 : samples.length ≠ 0 := fun h => hne (List.length_eq_zero.1 h)
  cases weights with
  | none => simp [Laplace.Fit, h0]
  | some ws =>
    have h1 := hlen ws rfl
    simp [Laplace.Fit, h0, h1, effWeights]

theorem effWeights_length (samples : List ℚ) (weights : Option (List ℚ))
    (hlen : ∀ ws, weights = some ws → ws.length = samples.length) :
    (effWeights samples weights).length = samples.length := by
  cases weights with
  | none => simp [effWeights]
  | some ws => exact hlen ws rfl

/-- A single sample is its own weighted median, whatever its weight. -/
theorem weightedMedian_single (x w : ℚ) : weightedMedian [x] [w] = x := by
  unfold weightedMedian
  cases hc : [x].filter (fun s => decide (reachesHalf [x] [w] s)) with
  | nil => rfl
  | cons c cs =>
    have hm := leastOf_mem c cs
    rw [← hc] at hm
    have := (List.mem_filter.1 hm).1
    simpa using this

/-- C5: `Fit` panics if and only if the sample list is empty or a non-nil
weight list has a length different from the sample list; `Fit([1,1,1],
[0.4,0.4])` and `Fit([], nil)` panic; every call with a non-empty sample
list and nil or equal-length weights returns. -/
theorem laplace_fit_panics_iff (l : Laplace) (samples : List ℚ)
    (weights : Option (List ℚ)) :
    (fitPanics l samples weights = true ↔
      (samples = [] ∨ ∃ ws, weights = some ws ∧ ws.length ≠ samples.length)) ∧
    l.Fit [1, 1, 1] (some [0.4, 0.4]) = Except.error FitPanic.badLength ∧
    l.Fit [] none = Except.error FitPanic.badNoSamples ∧
    ((samples ≠ [] ∧ ∀ ws, weights = some ws → ws.length = samples.length) →
      ∃ d, l.Fit samples weights = Except.ok d) := by
  refine ⟨?_, by simp [Laplace.Fit], by simp [Laplace.Fit], ?_⟩
  · constructor
    · intro hp
      by_contra hcon
      push_neg at hcon
      have hok := fit_ok l samples weights hcon.1 hcon.2
      unfold fitPanics at hp
      rw [hok] at hp
      exact Bool.false_ne_true hp
    · intro h
      unfold fitPanics Laplace.Fit
      rcases h with rfl | ⟨ws, rfl, hne⟩
      · cases weights with
        | none => simp
        | some ws =>
          by_cases hl : ws.length = 0
          · simp [hl]
          · have hl2 : ¬ (0 = ws.length) := fun h => hl h.symm
            simp [hl2]
      · have hne2 : samples.length ≠ ws.length := fun h => hne h.symm
        simp only [hne2, ne_eq, not_false_eq_true, if_true]
  · rintro ⟨hne, hlen⟩
    exact ⟨_, fit_ok l samples weights hne hlen⟩

/-- Witness for C5: three samples with three weights. -/
theorem laplace_fit_panics_iff_witness :
    ∃ d, (⟨3, 5⟩ : Laplace).Fit [10, 1, 1] (some [0, 1, 1]) = Except.ok d :=
  (laplace_fit_panics_iff ⟨3, 5⟩ [10, 1, 1] (some [0, 1, 1])).2.2.2
    ⟨by simp, by intro ws h; cases h; rfl⟩

/-- C6: for a non-empty sample list whose weights (nil meaning weight 1 for
each sample) have positive total, `Fit` returns with `Mu` the smallest sample
whose cumulative weight reaches half of the total weight and with `Scale` the
weighted mean of `|sample - Mu|`.  Samples [10,1,1] give Mu = 1, Scale = 3
with nil weights and with weights [10,10,10], and Mu = 1, Scale = 0 with
weights [0,1,1]; a single sample x gives Mu = x, Scale = 0; every row of the
table of `TestLaplaceFit` passes. -/
theorem laplace_fit_estimates (l : Laplace) :
    (∀ (samples : List ℚ) (weights : Option (List ℚ)), samples ≠ [] →
      (∀ ws, weights = some ws → ws.length = samples.length) →
      0 < (effWeights samples weights).sum →
      ∃ d, l.Fit samples weights = Except.ok d ∧
        d.Mu ∈ samples ∧
        reachesHalf samples (effWeights samples weights) d.Mu ∧
        (∀ s ∈ samples, reachesHalf samples (effWeights samples weights) s → d.Mu ≤ s) ∧
        d.Scale =
          ((samples.zip (effWeights samples weights)).map fun p => p.2 * |p.1 - d.Mu|).sum
            / (effWeights samples weights).sum) ∧
    l.Fit [10, 1, 1] none = Except.ok ⟨1, 3⟩ ∧
    l.Fit [10, 1, 1] (some [10, 10, 10]) = Except.ok ⟨1, 3⟩ ∧
    l.Fit [10, 1, 1] (some [0, 1, 1]) = Except.ok ⟨1, 0⟩ ∧
    (∀ x : ℚ, l.Fit [x] none = Except.ok ⟨x, 0⟩) ∧
    (∀ r ∈ laplaceFitTable, fitRowPasses r) := by
  refine ⟨?_, ?_, ?_, ?_, ?_, ?_⟩
  · intro samples weights hne hlen hpos
    have hspec := weightedMedian_spec samples (effWeights samples weights) hne
      (effWeights_length samples weights hlen) (le_of_lt hpos)
    exact ⟨_, fit_ok l samples weights hne hlen, hspec.1, hspec.2.1, hspec.2.2, rfl⟩
  · simp [Laplace.Fit, effWeights, weightedMedian, reachesHalf, cumWeight, meanAbsDev,
      leastOf, greatestOf]
    norm_num
  · simp [Laplace.Fit, effWeights, weightedMedian, reachesHalf, cumWeight, meanAbsDev,
      leastOf, greatestOf]
    norm_num
  · simp [Laplace.Fit, effWeights, weightedMedian, reachesHalf, cumWeight, meanAbsDev,
      leastOf, greatestOf]
  · intro x
    rw [fit_ok l [x] none (by simp) (by intro ws h; cases h)]
    have hm : weightedMedian [x] (effWeights [x] none) = x := weightedMedian_single x 1
    rw [hm]
    simp [meanAbsDev, effWeights]
  · intro r hr
    simp only [laplaceFitTable, List.mem_cons, List.mem_singleton, List.not_mem_nil,
      or_false] at hr
    rcases hr with rfl | rfl | rfl | rfl | rfl <;>
      simp [fitRowPasses, Laplace.Fit, effWeights, weightedMedian, reachesHalf, cumWeight,
        meanAbsDev, leastOf, greatestOf] <;> norm_num

/-- Witness for C6: samples [10, 1, 1] with weights [0, 1, 1]. -/
theorem laplace_fit_estimates_witness :
    ∃ d, (⟨0, 0⟩ : Laplace).Fit [10, 1, 1] (some [0, 1, 1]) = Except.ok d ∧
      d.Mu ∈ [(10 : ℚ), 1, 1] ∧
      reachesHalf [10, 1, 1] (effWeights [10, 1, 1] (some [0, 1, 1])) d.Mu ∧
      (∀ s ∈ [(10 : ℚ), 1, 1],
        reachesHalf [10, 1, 1] (effWeights [10, 1, 1] (some [0, 1, 1])) s → d.Mu ≤ s) ∧
      d.Scale =
        (([(10 : ℚ), 1, 1].zip (effWeights [10, 1, 1] (some [0, 1, 1]))).map
          fun p => p.2 * |p.1 - d.Mu|).sum
          / (effWeights [10, 1, 1] (some [0, 1, 1])).sum :=
  (laplace_fit_estimates ⟨0, 0⟩).1 [10, 1, 1] (some [0, 1, 1]) (by simp)
    (by intro ws h; cases h; rfl) (by simp [effWeights])

/-! ## Bounds of the alpha/beta check of `Dggsvd3Test` -/

/-- The slice expression of the alpha/beta loop panics when `k > m`: then
`m-k-l < 0` for `l >= 0`, and `alpha[k:m]` has its low bound above its high
bound. -/
theorem alphaBetaIndices_eq_none {n m k l : Int} (hl : 0 ≤ l) (hkm : m < k) :
    alphaBetaIndices n m k l = none := by
  unfold alphaBetaIndices
  have hm : ¬ (m - k - l ≥ 0) := by omega
  have hc : ¬ (0 ≤ k ∧ k ≤ m ∧ m ≤ n) := by omega
  simp only [hm, if_false, sliceLen, hc, Option.map_none']

/-- The run of an iteration of `Dggsvd3Test` whose real call converged and
whose alpha slice is out of bounds. -/
theorem dggsvd3Case_slice_panics {F : Type} (toInt : F → Int) (maxLen : Int) (passes : Check → Bool)
    (cas : Nat) (test : Dggsvd3Row) (work0 : F) (ret : Dggsvd3Ret)
    (hlw : 0 ≤ toInt work0) (hmax : toInt work0 ≤ maxLen) (hok : ret.ok = true)
    (hidx : alphaBetaIndices test.n test.m ret.k ret.l = none) :
    (dggsvd3Case toInt maxLen passes cas test work0 ret).panicked = true ∧
      alphaBetaChecked (dggsvd3Case toInt maxLen passes cas test work0 ret).events = [] := by
  unfold dggsvd3Case
  have hlw2 : ¬ makePanics maxLen (toInt work0) := by unfold makePanics; omega
  have hother : ∀ c, (∀ i, c ≠ Check.alphaBeta i) →
      alphaBetaChecked (runCheck passes cas c) = [] := by
    intro c hc
    unfold runCheck
    cases c with
    | alphaBeta i => exact absurd rfl (hc i)
    | _ => split <;> simp [alphaBetaChecked]
  simp only [hlw2, hok, hidx, if_false, Bool.not_true, Bool.false_eq_true]
  refine ⟨trivial, ?_⟩
  have hcall : ∀ a es, alphaBetaChecked (Event.call a :: es) = alphaBetaChecked es :=
    fun _ _ => rfl
  simp only [alphaBetaChecked_append, hcall]
  rw [hother Check.orthoU (by intro i; simp), hother Check.orthoV (by intro i; simp),
    hother Check.orthoQ (by intro i; simp)]
  have hnil : alphaBetaChecked [] = [] := rfl
  simp [hnil]

/-- C11 (amended): for every `m, p, n` (in particular `m, p, n >= 0`) and
rank indices with `0 <= k`, `0 <= l`, `k + l <= min(m+p, n)`, the slice of
`alpha` that `Dggsvd3Test` selects (`alpha[k:k+l]` when `m-k-l >= 0`,
otherwise `alpha[k:m]`) is in bounds for `alpha` of length `n` exactly when
`k <= m`; every index at which `alpha` and `beta` are then read lies in
`[0, n)`; and an iteration whose real call converged ends without a panic
exactly when `k <= m`.  The real call is made: `int(work[0])` is a length the
allocation of `work` accepts. -/
theorem dggsvd3_alphaBeta_slice_bounds {F : Type} (toInt : F → Int) (maxLen : Int)
    (passes : Check → Bool) (cas : Nat) (test : Dggsvd3Row) (work0 : F) (ret : Dggsvd3Ret)
    (hk : 0 ≤ ret.k) (hl : 0 ≤ ret.l)
    (hkl : ret.k + ret.l ≤ min (test.m + test.p) test.n)
    (hlw : 0 ≤ toInt work0) (hmax : toInt work0 ≤ maxLen) (hok : ret.ok = true) :
    ((∃ len, (if test.m - ret.k - ret.l ≥ 0 then sliceLen test.n ret.k (ret.k + ret.l)
        else sliceLen test.n ret.k test.m) = some len) ↔ ret.k ≤ test.m) ∧
    (∀ idxs, alphaBetaIndices test.n test.m ret.k ret.l = some idxs →
      ∀ i ∈ idxs, 0 ≤ i ∧ i < test.n) ∧
    ((dggsvd3Case toInt maxLen passes cas test work0 ret).panicked = false ↔ ret.k ≤ test.m) ∧
    (∀ i ∈ alphaBetaChecked (dggsvd3Case toInt maxLen passes cas test work0 ret).events,
      0 ≤ i ∧ i < test.n) := by
  have hkn : ret.k + ret.l ≤ test.n := le_trans hkl (min_le_right _ _)
  have hbound : ∀ idxs, alphaBetaIndices test.n test.m ret.k ret.l = some idxs →
      ∀ i ∈ idxs, 0 ≤ i ∧ i < test.n := by
    intro idxs hidx i hi
    have h := (mem_alphaBetaIndices hidx i).1 hi
    rw [lt_min_iff] at h
    omega
  have hdef : alphaBetaIndices test.n test.m ret.k ret.l =
      (if test.m - ret.k - ret.l ≥ 0 then sliceLen test.n ret.k (ret.k + ret.l)
        else sliceLen test.n ret.k test.m).map
        (fun len => (List.range len).map fun (i : Nat) => (i : Int) + ret.k) := rfl
  by_cases hkm : ret.k ≤ test.m
  · obtain ⟨idxs, hidx⟩ := alphaBetaIndices_isSome hk hl hkm hkn
    obtain ⟨hpanic, hev⟩ :=
      dggsvd3Case_converged toInt maxLen passes cas test work0 ret idxs hlw hmax hok hidx
    refine ⟨⟨fun _ => hkm, fun _ => ?_⟩, hbound, ⟨fun _ => hkm, fun _ => hpanic⟩, ?_⟩
    · cases hs : (if test.m - ret.k - ret.l ≥ 0 then sliceLen test.n ret.k (ret.k + ret.l)
          else sliceLen test.n ret.k test.m) with
      | none =>
        rw [hdef, hs] at hidx
        exact absurd hidx (by simp)
      | some len => exact ⟨len, rfl⟩
    · rw [hev]
      exact hbound idxs hidx
  · have hidx : alphaBetaIndices test.n test.m ret.k ret.l = none :=
      alphaBetaIndices_eq_none hl (by omega)
    obtain ⟨hpanic, hev⟩ :=
      dggsvd3Case_slice_panics toInt maxLen passes cas test work0 ret hlw hmax hok hidx
    refine ⟨⟨fun h => ?_, fun h => absurd h hkm⟩, hbound,
      ⟨fun h => ?_, fun h => absurd h hkm⟩, ?_⟩
    · obtain ⟨len, hlen⟩ := h
      rw [hdef, hlen] at hidx
      exact absurd hidx (by simp)
    · rw [hpanic] at h
      exact absurd h (by decide)
    · rw [hev]
      intro i hi
      exact absurd hi (List.not_mem_nil _)

/-- Witness for C11 (amended): the first row of the table (m = 3, p = 3,
n = 5) with k = 2, l = 3, where `k <= m`. -/
theorem dggsvd3_alphaBeta_slice_bounds_witness :
    (dggsvd3Case (fun x : Int => x) 1000 (fun _ => true) 0 ⟨3, 3, 5, 0, 0, 0, 0, 0, true⟩ 1
        ⟨2, 3, true⟩).panicked = false ∧
      ∀ i ∈ alphaBetaChecked (dggsvd3Case (fun x : Int => x) 1000 (fun _ => true) 0
          ⟨3, 3, 5, 0, 0, 0, 0, 0, true⟩ 1 ⟨2, 3, true⟩).events, 0 ≤ i ∧ i < (5 : Int) :=
  have h := dggsvd3_alphaBeta_slice_bounds (fun x : Int => x) 1000 (fun _ => true) 0
    ⟨3, 3, 5, 0, 0, 0, 0, 0, true⟩ 1 ⟨2, 3, true⟩
    (by decide) (by decide) (by decide) (by decide) (by decide) rfl
  ⟨h.2.2.1.2 (by decide), h.2.2.2⟩

/-- C11 fails as stated: m = 3, p = 3, n = 5 (the first row of the table)
with k = 4, l = 1 satisfies `0 <= k`, `0 <= l` and `k + l <= min(m+p, n)`,
yet `m-k-l < 0` selects `alpha[4:3]`, which is out of bounds, and the
iteration panics. -/
theorem dggsvd3_alphaBeta_slice_out_of_bounds :
    ((0 : Int) ≤ 4 ∧ (0 : Int) ≤ 1 ∧ (4 : Int) + 1 ≤ min (3 + 3) 5) ∧
    ¬ ((3 : Int) - 4 - 1 ≥ 0) ∧
    sliceLen 5 4 3 = none ∧
    alphaBetaIndices 5 3 4 1 = none ∧
    (dggsvd3Case (fun x : Int => x) 1000 (fun _ => true) 0 ⟨3, 3, 5, 0, 0, 0, 0, 0, true⟩ 1
      ⟨4, 1, true⟩).panicked = true := by
  refine ⟨by decide, by decide, by decide, by decide, by decide⟩

end Gonum
